import Mathlib

/-!
Shallow embedding of `src/colvarproxy.h` (the `colvarproxy` base class of the
collective-variables module): the atom registry, the force-accumulation
accessors, the output-channel bookkeeping, the replica-coordination defaults,
and the frame accessor, together with theorems settling the spec's claims.

Modelling conventions:
* `cvm::real` (a C++ `double`) is modelled as `ℚ`; the properties at stake are
  purely structural (accumulation vs. replacement, componentwise subtraction),
  not about rounding.
* `cvm::rvector` is defined in `colvarmodule.h`, which is not part of the
  sources; it is modelled from the spec as a 3-vector with componentwise
  arithmetic, and `cvm::rvector(0.0)` as the zero vector.
* `std::vector` / `std::list` become Lean `List`s; a C++ `operator[]` access
  that would be out of range (undefined behaviour) is modelled as `List.getD`
  with the type's default / a no-op write.
* `cvm::error(msg, code)` is defined in `colvarmodule.h`, not in the sources.
  Modelled from the spec: every failure is routed through a single reporting
  sink with a severity tag; the sink is modelled as a log of error codes
  carried in the proxy state, and `cvm.error` appends a code to it.
* The error-code constants live in `colvarmodule.h`, not in the sources.
  Modelled from the spec: the kinds `UnsupportedOperation`
  (`COLVARS_NOT_IMPLEMENTED`), `InputError`, `FileError` and `BugError` are
  pairwise distinct status codes, all distinct from `COLVARS_OK`.
* `std::ofstream *` handles returned by `new` are modelled as `Nat` handles
  drawn from a freshness counter (`new` never returns a null pointer, so every
  returned handle is a valid, non-null one).
-/

/-- Modelled from the spec: success status code (`colvarmodule.h`). -/
def COLVARS_OK : Int := 0

/-- Modelled from the spec: generic error status code (`colvarmodule.h`). -/
def COLVARS_ERROR : Int := 1

/-- Modelled from the spec: the `UnsupportedOperation` status code
(`COLVARS_NOT_IMPLEMENTED` in `colvarmodule.h`), distinct from the other
error kinds and from data sentinels such as `COLVARS_NO_SUCH_FRAME`. -/
def COLVARS_NOT_IMPLEMENTED : Int := 2

/-- Modelled from the spec: the `InputError` code (`colvarmodule.h`). -/
def INPUT_ERROR : Int := 4

/-- Modelled from the spec: the `BugError` code (`colvarmodule.h`). -/
def BUG_ERROR : Int := 8

/-- Modelled from the spec: the `FileError` code (`colvarmodule.h`). -/
def FILE_ERROR : Int := 16

/-- `#define COLVARS_NO_SUCH_FRAME -1` (src/colvarproxy.h line 13):
"return values for the frame() routine". -/
def COLVARS_NO_SUCH_FRAME : Int := -1

/-- Modelled from the spec: `cvm::rvector` (defined in `colvarmodule.h`),
a 3-vector of `cvm::real`. -/
structure rvector where
  x : ℚ
  y : ℚ
  z : ℚ
deriving DecidableEq, Repr

instance : Zero rvector := ⟨⟨0, 0, 0⟩⟩

instance : Add rvector := ⟨fun a b => ⟨a.x + b.x, a.y + b.y, a.z + b.z⟩⟩

instance : Sub rvector := ⟨fun a b => ⟨a.x - b.x, a.y - b.y, a.z - b.z⟩⟩

/-- The state of a `colvarproxy` object: the seven parallel per-atom arrays
(lines 29-41), the output-stream bookkeeping lists (lines 58-60), plus the
modelled external-world bookkeeping (`next_handle` for pointer freshness and
`errors` for the `cvm::error` reporting sink). -/
structure colvarproxy where
  atoms_ids : List Int
  atoms_ncopies : List Int
  atoms_masses : List ℚ
  atoms_positions : List rvector
  atoms_total_forces : List rvector
  atoms_applied_forces : List rvector
  atoms_new_colvar_forces : List rvector
  output_files : List Nat
  output_stream_names : List String
  next_handle : Nat
  errors : List Int
deriving DecidableEq, Repr

/-- The default-constructed proxy: all vectors and lists empty. -/
def initProxy : colvarproxy :=
  ⟨[], [], [], [], [], [], [], [], [], 0, []⟩

/-- Modelled from the spec: `cvm::error(message, code)` (declared in
`colvarmodule.h`) routes the failure to the reporting sink; modelled as
appending the severity code to the proxy's error log. -/
def cvm.error (p : colvarproxy) (code : Int) : colvarproxy :=
  { p with errors := p.errors ++ [code] }

/-- `add_atom_slot` (lines 44-54): push one entry on each of the seven arrays
(`atom_id`, count 1, mass 1.0, four zero vectors) and return
`atoms_ids.size() - 1`. -/
def add_atom_slot (p : colvarproxy) (atom_id : Int) : Int × colvarproxy :=
  let q : colvarproxy :=
    { p with
      atoms_ids := p.atoms_ids ++ [atom_id]
      atoms_ncopies := p.atoms_ncopies ++ [1]
      atoms_masses := p.atoms_masses ++ [1]
      atoms_positions := p.atoms_positions ++ [0]
      atoms_total_forces := p.atoms_total_forces ++ [0]
      atoms_applied_forces := p.atoms_applied_forces ++ [0]
      atoms_new_colvar_forces := p.atoms_new_colvar_forces ++ [0] }
  ((q.atoms_ids.length : Int) - 1, q)

/-- `clear_atom` (lines 307-316): report `INPUT_ERROR` when the index is out
of the declared range, then decrement `atoms_ncopies[index]` only when it is
positive.  (The source does not return after the error call; the subsequent
out-of-range subscript is undefined behaviour in C++, modelled as no change.) -/
def clear_atom (p : colvarproxy) (index : Int) : colvarproxy :=
  let p1 := if index < 0 ∨ (p.atoms_ids.length : Int) ≤ index then
      cvm.error p INPUT_ERROR
    else p
  if 0 ≤ index ∧ 0 < p1.atoms_ncopies.getD index.toNat 0 then
    { p1 with atoms_ncopies :=
        p1.atoms_ncopies.set index.toNat (p1.atoms_ncopies.getD index.toNat 0 - 1) }
  else p1

/-- `get_atom_system_force` (lines 337-340):
`atoms_total_forces[index] - atoms_applied_forces[index]`.  The source member
function is `const`; the model is a pure function of the state.  (The index is
a C++ `int` whose behaviour is defined only in range; the model takes the
nonnegative index.) -/
def get_atom_system_force (p : colvarproxy) (index : Nat) : rvector :=
  p.atoms_total_forces.getD index 0 - p.atoms_applied_forces.getD index 0

/-- `apply_atom_force` (lines 343-346):
`atoms_new_colvar_forces[index] += new_force`. -/
def apply_atom_force (p : colvarproxy) (index : Nat) (new_force : rvector) :
    colvarproxy :=
  { p with atoms_new_colvar_forces :=
      p.atoms_new_colvar_forces.set index (p.atoms_new_colvar_forces.getD index 0 + new_force) }

/-- The lockstep scan of `output_stream` (lines 201-207): walk
`output_files` and `output_stream_names` together and return the handle
paired with the first name equal to the argument, if any. -/
def findStream : List String → List Nat → String → Option Nat
  | n :: ns, f :: fs, name => if n = name then some f else findStream ns fs name
  | _, _, _ => none

/-- `output_stream` (lines 199-216): return the handle already recorded for
`output_name` if the scan finds one; otherwise push the name, open a new
stream (`new std::ofstream`, modelled as allocating the next fresh handle;
`canOpen` models whether the underlying file open succeeds), report
`FILE_ERROR` through `cvm::error` when the open failed, push the handle, and
return it. -/
def output_stream (canOpen : String → Bool) (p : colvarproxy)
    (output_name : String) : Nat × colvarproxy :=
  match findStream p.output_stream_names p.output_files output_name with
  | some os => (os, p)
  | none =>
    let os := p.next_handle
    let p1 := { p with
      output_stream_names := p.output_stream_names ++ [output_name]
      next_handle := p.next_handle + 1 }
    let p2 := if canOpen output_name then p1 else cvm.error p1 FILE_ERROR
    let p3 := { p2 with output_files := p2.output_files ++ [os] }
    (os, p3)

/-- The lockstep scan of `close_output_stream` (lines 221-230): when the name
is found, return both bookkeeping lists with that entry erased; otherwise
`none`. -/
def closeScan : List String → List Nat → String →
    Option (List String × List Nat)
  | n :: ns, f :: fs, name =>
    if n = name then some (ns, fs)
    else
      match closeScan ns fs name with
      | some (ns2, fs2) => some (n :: ns2, f :: fs2)
      | none => none
  | _, _, _ => none

/-- `close_output_stream` (lines 219-234): erase the matching entry from both
bookkeeping lists and return `COLVARS_OK`; when no entry matches, report
`BUG_ERROR` through `cvm::error` and return `COLVARS_ERROR`. -/
def close_output_stream (p : colvarproxy) (output_name : String) :
    Int × colvarproxy :=
  match closeScan p.output_stream_names p.output_files output_name with
  | some (ns2, fs2) =>
    (COLVARS_OK, { p with output_stream_names := ns2, output_files := fs2 })
  | none => (COLVARS_ERROR, cvm.error p BUG_ERROR)

/-- `replica_enabled` (line 133): the base class returns `false`. -/
def replica_enabled : Bool := false

/-- `replica_index` (line 136): the base class returns `0`. -/
def replica_index : Int := 0

/-- `replica_num` (line 139): the base class returns `1`. -/
def replica_num : Int := 1

/-- `replica_comm_barrier` (line 142): the base class body is empty, a no-op
on the state. -/
def replica_comm_barrier (p : colvarproxy) : colvarproxy := p

/-- `replica_comm_recv` (lines 145-147): the base class returns
`COLVARS_NOT_IMPLEMENTED` whatever the arguments. -/
def replica_comm_recv (msg_data : List Int) (buf_len : Int) (src_rep : Int) :
    Int :=
  COLVARS_NOT_IMPLEMENTED

/-- `replica_comm_send` (lines 150-152): the base class returns
`COLVARS_NOT_IMPLEMENTED` whatever the arguments. -/
def replica_comm_send (msg_data : List Int) (msg_len : Int) (dest_rep : Int) :
    Int :=
  COLVARS_NOT_IMPLEMENTED

/-- `frame()` (line 96): the base class returns `COLVARS_NOT_IMPLEMENTED`. -/
def frame : Int := COLVARS_NOT_IMPLEMENTED

/-- One registry mutation: an `add_atom_slot` call or a `clear_atom` call. -/
inductive AtomOp where
  | add (atom_id : Int)
  | clear (index : Int)
deriving DecidableEq, Repr

/-- Run one registry operation on the proxy state. -/
def runAtomOp (p : colvarproxy) : AtomOp → colvarproxy
  | .add atom_id => (add_atom_slot p atom_id).2
  | .clear index => clear_atom p index

/-- Run a sequence of registry operations on the proxy state. -/
def runAtomOps (p : colvarproxy) (ops : List AtomOp) : colvarproxy :=
  ops.foldl runAtomOp p

/-- Two 3-vectors with equal components are equal. -/
theorem rvector.ext2 (a b : rvector) (hx : a.x = b.x) (hy : a.y = b.y)
    (hz : a.z = b.z) : a = b := by
  cases a; cases b; simp_all

theorem rvector.add_x (a b : rvector) : (a + b).x = a.x + b.x := rfl

theorem rvector.add_y (a b : rvector) : (a + b).y = a.y + b.y := rfl

theorem rvector.add_z (a b : rvector) : (a + b).z = a.z + b.z := rfl

theorem rvector.zero_x : (0 : rvector).x = 0 := rfl

theorem rvector.zero_y : (0 : rvector).y = 0 := rfl

theorem rvector.zero_z : (0 : rvector).z = 0 := rfl

instance : AddCommMonoid rvector where
  add_assoc a b c := by
    refine rvector.ext2 _ _ ?_ ?_ ?_ <;>
      simp [rvector.add_x, rvector.add_y, rvector.add_z, add_assoc]
  zero_add a := by
    refine rvector.ext2 _ _ ?_ ?_ ?_ <;>
      simp [rvector.add_x, rvector.add_y, rvector.add_z,
        rvector.zero_x, rvector.zero_y, rvector.zero_z]
  add_zero a := by
    refine rvector.ext2 _ _ ?_ ?_ ?_ <;>
      simp [rvector.add_x, rvector.add_y, rvector.add_z,
        rvector.zero_x, rvector.zero_y, rvector.zero_z]
  add_comm a b := by
    refine rvector.ext2 _ _ ?_ ?_ ?_ <;>
      simp [rvector.add_x, rvector.add_y, rvector.add_z, add_comm]
  nsmul := nsmulRec

/-- Reading a just-written position of a list with a default. -/
theorem getD_set_self {α : Type} : ∀ (l : List α) (i : Nat) (v d : α),
    i < l.length → (l.set i v).getD i d = v
  | [], i, _, _, h => absurd h (by simp)
  | _ :: _, 0, _, _, _ => rfl
  | _ :: l, i + 1, v, d, h => getD_set_self l i v d (Nat.lt_of_succ_lt_succ h)

/-- Writing one position of a list leaves reads at other positions alone. -/
theorem getD_set_ne {α : Type} : ∀ (l : List α) (i j : Nat) (v d : α),
    i ≠ j → (l.set i v).getD j d = l.getD j d
  | [], _, _, _, _, _ => by simp
  | _ :: _, 0, 0, _, _, h => absurd rfl h
  | _ :: _, 0, _ + 1, _, _, _ => rfl
  | _ :: _, _ + 1, 0, _, _, _ => rfl
  | _ :: l, i + 1, j + 1, v, d, h =>
    getD_set_ne l i j v d (fun e => h (by rw [e]))

/-- Folding `apply_atom_force` at index `i` over a list of deltas adds the sum
of the deltas to the entry at `i`. -/
theorem apply_fold_getD (i : Nat) : ∀ (ds : List rvector) (p : colvarproxy),
    i < p.atoms_new_colvar_forces.length →
    ((ds.foldl (fun q d => apply_atom_force q i d) p).atoms_new_colvar_forces.getD i 0)
      = p.atoms_new_colvar_forces.getD i 0 + ds.sum
  | [], p, _ => by simp
  | d :: ds, p, h => by
    have hlen : i < (apply_atom_force p i d).atoms_new_colvar_forces.length := by
      simpa [apply_atom_force] using h
    have ih := apply_fold_getD i ds (apply_atom_force p i d) hlen
    have hset : (apply_atom_force p i d).atoms_new_colvar_forces.getD i 0
        = p.atoms_new_colvar_forces.getD i 0 + d := by
      simpa [apply_atom_force] using
        getD_set_self p.atoms_new_colvar_forces i
          (p.atoms_new_colvar_forces.getD i 0 + d) 0 h
    simp only [List.foldl_cons, List.sum_cons]
    rw [ih, hset, add_assoc]

/-- Folding `apply_atom_force` at index `i` leaves every other index alone. -/
theorem apply_fold_getD_ne (i j : Nat) (hij : j ≠ i) :
    ∀ (ds : List rvector) (p : colvarproxy),
    ((ds.foldl (fun q d => apply_atom_force q i d) p).atoms_new_colvar_forces.getD j 0)
      = p.atoms_new_colvar_forces.getD j 0
  | [], _ => rfl
  | d :: ds, p => by
    have ih := apply_fold_getD_ne i j hij ds (apply_atom_force p i d)
    have hset : (apply_atom_force p i d).atoms_new_colvar_forces.getD j 0
        = p.atoms_new_colvar_forces.getD j 0 := by
      simpa [apply_atom_force] using
        getD_set_ne p.atoms_new_colvar_forces i j
          (p.atoms_new_colvar_forces.getD i 0 + d) 0 (fun e => hij e.symm)
    simp only [List.foldl_cons]
    rw [ih, hset]

/-- Claim C1: `apply_atom_force` always accumulates: starting from a zero
pending colvar force at a valid index `i`, after applying the deltas `ds` one
by one the pending force at `i` is the sum of the deltas, and the pending
force at every other index is unchanged. -/
theorem apply_atom_force_accumulates (p : colvarproxy) (i : Nat)
    (ds : List rvector) (hi : i < p.atoms_new_colvar_forces.length)
    (h0 : p.atoms_new_colvar_forces.getD i 0 = 0) :
    ((ds.foldl (fun q d => apply_atom_force q i d) p).atoms_new_colvar_forces.getD i 0)
      = ds.sum ∧
    ∀ j : Nat, j ≠ i →
      ((ds.foldl (fun q d => apply_atom_force q i d) p).atoms_new_colvar_forces.getD j 0)
        = p.atoms_new_colvar_forces.getD j 0 := by
  constructor
  · rw [apply_fold_getD i ds p hi, h0, zero_add]
  · intro j hj
    exact apply_fold_getD_ne i j hj ds p

/-- Witness for C1: the spec's scenario, deltas `(1,0,0)` then `(0,1,0)` on a
fresh slot, yields pending force `(1,1,0)`. -/
theorem apply_atom_force_accumulates_witness :
    (0 < (add_atom_slot initProxy 7).2.atoms_new_colvar_forces.length ∧
      (add_atom_slot initProxy 7).2.atoms_new_colvar_forces.getD 0 0 = 0) ∧
    ((([⟨1,0,0⟩, ⟨0,1,0⟩] : List rvector).foldl (fun q d => apply_atom_force q 0 d)
        (add_atom_slot initProxy 7).2).atoms_new_colvar_forces.getD 0 0)
      = ([⟨1,0,0⟩, ⟨0,1,0⟩] : List rvector).sum :=
  ⟨⟨by decide, by decide⟩,
    (apply_atom_force_accumulates (add_atom_slot initProxy 7).2 0
      [⟨1,0,0⟩, ⟨0,1,0⟩] (by decide) (by decide)).1⟩

/-- Claim C2: `get_atom_system_force` returns exactly
`total_force[index] - applied_force[index]`, component by component.  The
source member function is `const` and the model is a pure function of the
state, so computing it modifies nothing. -/
theorem get_atom_system_force_eq (p : colvarproxy) (i : Nat)
    (h1 : i < p.atoms_total_forces.length)
    (h2 : i < p.atoms_applied_forces.length) :
    (get_atom_system_force p i).x
        = (p.atoms_total_forces.get ⟨i, h1⟩).x - (p.atoms_applied_forces.get ⟨i, h2⟩).x ∧
    (get_atom_system_force p i).y
        = (p.atoms_total_forces.get ⟨i, h1⟩).y - (p.atoms_applied_forces.get ⟨i, h2⟩).y ∧
    (get_atom_system_force p i).z
        = (p.atoms_total_forces.get ⟨i, h1⟩).z - (p.atoms_applied_forces.get ⟨i, h2⟩).z := by
  unfold get_atom_system_force
  rw [List.getD_eq_getElem _ _ h1, List.getD_eq_getElem _ _ h2]
  simp only [List.get_eq_getElem]
  exact ⟨rfl, rfl, rfl⟩

/-- Witness for C2: with total force `(5,6,7)` and applied force `(1,2,3)` in
slot 0, the system force is `(4,4,4)`. -/
theorem get_atom_system_force_eq_witness :
    (0 < ({ initProxy with
        atoms_total_forces := [⟨5,6,7⟩],
        atoms_applied_forces := [⟨1,2,3⟩] } : colvarproxy).atoms_total_forces.length ∧
     0 < ({ initProxy with
        atoms_total_forces := [⟨5,6,7⟩],
        atoms_applied_forces := [⟨1,2,3⟩] } : colvarproxy).atoms_applied_forces.length) ∧
    (get_atom_system_force { initProxy with
        atoms_total_forces := [⟨5,6,7⟩],
        atoms_applied_forces := [⟨1,2,3⟩] } 0).x = 5 - 1 :=
  ⟨⟨by decide, by decide⟩,
    (get_atom_system_force_eq { initProxy with
        atoms_total_forces := [⟨5,6,7⟩],
        atoms_applied_forces := [⟨1,2,3⟩] } 0 (by decide) (by decide)).1⟩

/-- Claim C3: `add_atom_slot` returns the never-before-used index one past the
previous highest (the previous length), appends exactly one entry to each of
the seven arrays -- reference count 1, mass 1.0, zero vectors -- and leaves
every existing slot untouched. -/
theorem add_atom_slot_fresh (p : colvarproxy) (atom_id : Int) :
    (add_atom_slot p atom_id).1 = (p.atoms_ids.length : Int) ∧
    (add_atom_slot p atom_id).2 = { p with
      atoms_ids := p.atoms_ids ++ [atom_id]
      atoms_ncopies := p.atoms_ncopies ++ [1]
      atoms_masses := p.atoms_masses ++ [1]
      atoms_positions := p.atoms_positions ++ [0]
      atoms_total_forces := p.atoms_total_forces ++ [0]
      atoms_applied_forces := p.atoms_applied_forces ++ [0]
      atoms_new_colvar_forces := p.atoms_new_colvar_forces ++ [0] } := by
  refine ⟨?_, rfl⟩
  simp [add_atom_slot]

/-- Claim C8: in the base configuration `replica_enabled()` is `false`,
`replica_index()` is 0, `replica_num()` is 1, `replica_comm_barrier()` is a
no-op, and `replica_comm_recv`/`replica_comm_send` return
`COLVARS_NOT_IMPLEMENTED` (the `UnsupportedOperation` status) for every
argument value. -/
theorem replica_disabled_defaults :
    replica_enabled = false ∧ replica_index = 0 ∧ replica_num = 1 ∧
    (∀ p : colvarproxy, replica_comm_barrier p = p) ∧
    (∀ (d : List Int) (l s : Int),
      replica_comm_recv d l s = COLVARS_NOT_IMPLEMENTED) ∧
    (∀ (d : List Int) (l s : Int),
      replica_comm_send d l s = COLVARS_NOT_IMPLEMENTED) :=
  ⟨rfl, rfl, rfl, fun _ => rfl, fun _ _ _ => rfl, fun _ _ _ => rfl⟩

/-- Claim C9 (code bug): the base `frame()` returns
`COLVARS_NOT_IMPLEMENTED`, which is not the `COLVARS_NO_SUCH_FRAME` (-1)
sentinel that the header's own comment ("return values for the frame()
routine", line 12-13) designates for it. -/
theorem frame_not_no_such_frame :
    frame = COLVARS_NOT_IMPLEMENTED ∧ frame ≠ COLVARS_NO_SUCH_FRAME :=
  ⟨rfl, by decide⟩

/-- Counterexample to C6 as stated: on a proxy with one slot whose reference
count is already 0, `clear_atom 0` reports nothing through the error sink
(the error log stays empty) and leaves the count at 0, whereas the claim
demands an `InputError`. -/
theorem clear_atom_zero_count_no_error :
    (clear_atom { initProxy with atoms_ids := [5], atoms_ncopies := [0] } 0).errors = [] ∧
    (clear_atom { initProxy with atoms_ids := [5], atoms_ncopies := [0] } 0).atoms_ncopies = [0] := by
  decide

/-- Claim C6 (amended): `clear_atom` reports `InputError` when the index is
out of the declared range (and, the bookkeeping lists being aligned, changes
nothing else); for an in-range index it decrements the reference count by
exactly one when the count is positive, and when the count is already 0 it
silently leaves the state unchanged, reporting no error. -/
theorem clear_atom_amended (p : colvarproxy) (index : Int)
    (hlen : p.atoms_ncopies.length = p.atoms_ids.length) :
    (index < 0 ∨ (p.atoms_ids.length : Int) ≤ index →
      clear_atom p index = cvm.error p INPUT_ERROR) ∧
    (0 ≤ index → index < (p.atoms_ids.length : Int) →
      (0 < p.atoms_ncopies.getD index.toNat 0 →
        clear_atom p index = { p with atoms_ncopies :=
          (p.atoms_ncopies.set index.toNat
            (p.atoms_ncopies.getD index.toNat 0 - 1)) }) ∧
      (p.atoms_ncopies.getD index.toNat 0 = 0 → clear_atom p index = p)) := by
  constructor
  · intro hoob
    have hcond : ¬(0 ≤ index ∧
        0 < (cvm.error p INPUT_ERROR).atoms_ncopies.getD index.toNat 0) := by
      rintro ⟨h0, hlt⟩
      rcases hoob with h | h
      · omega
      · have hge : p.atoms_ncopies.length ≤ index.toNat := by omega
        have hz : (cvm.error p INPUT_ERROR).atoms_ncopies.getD index.toNat 0 = 0 :=
          List.getD_eq_default _ _ hge
        omega
    unfold clear_atom
    rw [if_pos hoob, if_neg hcond]
  · intro h0 hin
    have hC : ¬(index < 0 ∨ (p.atoms_ids.length : Int) ≤ index) := by omega
    constructor
    · intro hpos
      have hA : 0 ≤ index ∧ 0 < p.atoms_ncopies.getD index.toNat 0 := ⟨h0, hpos⟩
      unfold clear_atom
      rw [if_neg hC, if_pos hA]
    · intro hz
      have hA : ¬(0 ≤ index ∧ 0 < p.atoms_ncopies.getD index.toNat 0) := by
        rintro ⟨_, hlt⟩; omega
      unfold clear_atom
      rw [if_neg hC, if_neg hA]

/-- Witness for the amended C6: one slot with reference count 2, in-range
index 0: the count is decremented by exactly one. -/
theorem clear_atom_amended_witness :
    (({ initProxy with atoms_ids := [5], atoms_ncopies := [2] } : colvarproxy).atoms_ncopies.length
        = ({ initProxy with atoms_ids := [5], atoms_ncopies := [2] } : colvarproxy).atoms_ids.length ∧
      (0 : Int) ≤ 0 ∧ (0 : Int) < (({ initProxy with atoms_ids := [5], atoms_ncopies := [2] } : colvarproxy).atoms_ids.length : Int) ∧
      0 < ({ initProxy with atoms_ids := [5], atoms_ncopies := [2] } : colvarproxy).atoms_ncopies.getD (0 : Int).toNat 0) ∧
    clear_atom { initProxy with atoms_ids := [5], atoms_ncopies := [2] } 0
      = { initProxy with atoms_ids := [5], atoms_ncopies :=
          (({ initProxy with atoms_ids := [5], atoms_ncopies := [2] } : colvarproxy).atoms_ncopies.set (0 : Int).toNat
            (({ initProxy with atoms_ids := [5], atoms_ncopies := [2] } : colvarproxy).atoms_ncopies.getD (0 : Int).toNat 0 - 1)) } :=
  ⟨⟨by decide, by decide, by decide, by decide⟩,
    ((clear_atom_amended { initProxy with atoms_ids := [5], atoms_ncopies := [2] } 0
        (by decide)).2 (by decide) (by decide)).1 (by decide)⟩

/-- `clear_atom` either leaves the reference counts unchanged or decrements a
positive count at the addressed position. -/
theorem clear_atom_ncopies_cases (p : colvarproxy) (index : Int) :
    (clear_atom p index).atoms_ncopies = p.atoms_ncopies ∨
    (0 < p.atoms_ncopies.getD index.toNat 0 ∧
      (clear_atom p index).atoms_ncopies
        = p.atoms_ncopies.set index.toNat (p.atoms_ncopies.getD index.toNat 0 - 1)) := by
  unfold clear_atom
  by_cases hC : index < 0 ∨ (p.atoms_ids.length : Int) ≤ index
  · rw [if_pos hC]
    by_cases hA : 0 ≤ index ∧
        0 < (cvm.error p INPUT_ERROR).atoms_ncopies.getD index.toNat 0
    · rw [if_pos hA]
      exact Or.inr ⟨hA.2, rfl⟩
    · rw [if_neg hA]
      exact Or.inl rfl
  · rw [if_neg hC]
    by_cases hA : 0 ≤ index ∧ 0 < p.atoms_ncopies.getD index.toNat 0
    · rw [if_pos hA]
      exact Or.inr ⟨hA.2, rfl⟩
    · rw [if_neg hA]
      exact Or.inl rfl

/-- `clear_atom` never touches the slot identity array. -/
theorem clear_atom_atoms_ids (p : colvarproxy) (index : Int) :
    (clear_atom p index).atoms_ids = p.atoms_ids := by
  unfold clear_atom
  by_cases hC : index < 0 ∨ (p.atoms_ids.length : Int) ≤ index
  · rw [if_pos hC]
    by_cases hA : 0 ≤ index ∧
        0 < (cvm.error p INPUT_ERROR).atoms_ncopies.getD index.toNat 0
    · rw [if_pos hA]
      rfl
    · rw [if_neg hA]
      rfl
  · rw [if_neg hC]
    by_cases hA : 0 ≤ index ∧ 0 < p.atoms_ncopies.getD index.toNat 0
    · rw [if_pos hA]
    · rw [if_neg hA]

/-- One registry operation keeps every reference count nonnegative. -/
theorem runAtomOp_nonneg (p : colvarproxy) (op : AtomOp)
    (h : ∀ c ∈ p.atoms_ncopies, 0 ≤ c) :
    ∀ c ∈ (runAtomOp p op).atoms_ncopies, 0 ≤ c := by
  cases op with
  | add atom_id =>
    intro c hc
    simp only [runAtomOp, add_atom_slot, List.mem_append, List.mem_singleton] at hc
    rcases hc with hc | hc
    · exact h c hc
    · omega
  | clear index =>
    intro c hc
    rcases clear_atom_ncopies_cases p index with heq | ⟨hpos, heq⟩
    · rw [runAtomOp] at hc
      rw [heq] at hc
      exact h c hc
    · rw [runAtomOp] at hc
      rw [heq] at hc
      rcases List.mem_or_eq_of_mem_set hc with hc | hc
      · exact h c hc
      · omega

/-- One registry operation only ever extends the slot identity array. -/
theorem runAtomOp_ids_ext (p : colvarproxy) (op : AtomOp) :
    ∃ t, (runAtomOp p op).atoms_ids = p.atoms_ids ++ t := by
  cases op with
  | add atom_id => exact ⟨[atom_id], rfl⟩
  | clear index => exact ⟨[], by simp [runAtomOp, clear_atom_atoms_ids]⟩

/-- A sequence of registry operations keeps every reference count nonnegative
and only ever extends the slot identity array. -/
theorem runAtomOps_nonneg_ext : ∀ (ops : List AtomOp) (p : colvarproxy),
    (∀ c ∈ p.atoms_ncopies, 0 ≤ c) →
    (∀ c ∈ (runAtomOps p ops).atoms_ncopies, 0 ≤ c) ∧
    ∃ t, (runAtomOps p ops).atoms_ids = p.atoms_ids ++ t
  | [], p, h => ⟨h, [], by simp [runAtomOps]⟩
  | op :: ops, p, h => by
    have h1 := runAtomOp_nonneg p op h
    obtain ⟨t1, ht1⟩ := runAtomOp_ids_ext p op
    obtain ⟨h2, t2, ht2⟩ := runAtomOps_nonneg_ext ops (runAtomOp p op) h1
    have hstep : runAtomOps p (op :: ops) = runAtomOps (runAtomOp p op) ops := by
      simp [runAtomOps]
    refine ⟨by rw [hstep]; exact h2, t1 ++ t2, ?_⟩
    rw [hstep, ht2, ht1, List.append_assoc]

/-- Claim C7: under any sequence of `add_atom_slot` and `clear_atom`
operations, every reference count stays nonnegative, and no operation ever
removes a slot: the original identity array survives as the prefix of the
final one, whose length never decreases. -/
theorem atoms_ncopies_never_negative (ops : List AtomOp) (p : colvarproxy)
    (h : ∀ c ∈ p.atoms_ncopies, 0 ≤ c) :
    (∀ c ∈ (runAtomOps p ops).atoms_ncopies, 0 ≤ c) ∧
    (runAtomOps p ops).atoms_ids.take p.atoms_ids.length = p.atoms_ids ∧
    p.atoms_ids.length ≤ (runAtomOps p ops).atoms_ids.length := by
  obtain ⟨h1, t, ht⟩ := runAtomOps_nonneg_ext ops p h
  refine ⟨h1, ?_, ?_⟩
  · rw [ht]
    exact List.take_left _ _
  · rw [ht]
    simp

/-- Witness for C7: two adds then three clears (one of them on an
already-retired slot, one out of range) starting from the empty registry. -/
theorem atoms_ncopies_never_negative_witness :
    (∀ c ∈ initProxy.atoms_ncopies, (0:Int) ≤ c) ∧
    (∀ c ∈ (runAtomOps initProxy
        [AtomOp.add 7, AtomOp.add 3, AtomOp.clear 0, AtomOp.clear 0,
          AtomOp.clear 5]).atoms_ncopies, (0:Int) ≤ c) :=
  ⟨by decide,
    (atoms_ncopies_never_negative
      [AtomOp.add 7, AtomOp.add 3, AtomOp.clear 0, AtomOp.clear 0,
        AtomOp.clear 5] initProxy (by decide)).1⟩

/-- With aligned bookkeeping lists, the lockstep scan misses exactly when the
name is not recorded. -/
theorem findStream_eq_none {name : String} : ∀ {ns : List String}
    {fs : List Nat}, ns.length = fs.length →
    (findStream ns fs name = none ↔ name ∉ ns)
  | [], [], _ => by simp [findStream]
  | [], _ :: _, h => by simp at h
  | _ :: _, [], h => by simp at h
  | n :: ns, f :: fs, h => by
    by_cases hn : n = name
    · simp [findStream, hn]
    · have ih := @findStream_eq_none name ns fs
        (by simpa using h)
      have hred : findStream (n :: ns) (f :: fs) name = findStream ns fs name := by
        simp [findStream, hn]
      rw [hred, ih, List.mem_cons, not_or]
      constructor
      · intro h1
        exact ⟨fun e => hn e.symm, h1⟩
      · exact fun h1 => h1.2

/-- After a miss, pushing the name and a handle makes the scan return exactly
that handle. -/
theorem findStream_append_self {name : String} : ∀ {ns : List String}
    {fs : List Nat}, ns.length = fs.length →
    findStream ns fs name = none → ∀ os : Nat,
    findStream (ns ++ [name]) (fs ++ [os]) name = some os
  | [], [], _, _, os => by simp [findStream]
  | [], _ :: _, h, _, os => by simp at h
  | _ :: _, [], h, _, os => by simp at h
  | n :: ns, f :: fs, h, hmiss, os => by
    by_cases hn : n = name
    · simp [findStream, hn] at hmiss
    · have ih := @findStream_append_self name ns fs
        (by simpa using h) (by simpa [findStream, hn] using hmiss) os
      simpa [findStream, hn] using ih

/-- Claim C4: a second `output_stream` request with the same name returns the
very same handle and the very same state (nothing newly opened), and the
bookkeeping keeps at most one entry per distinct name (the name list stays
duplicate-free, aligned with the handle list). -/
theorem output_stream_idempotent (canOpen : String → Bool) (p : colvarproxy)
    (name : String)
    (hlen : p.output_stream_names.length = p.output_files.length)
    (hnd : p.output_stream_names.Nodup) :
    output_stream canOpen (output_stream canOpen p name).2 name
      = output_stream canOpen p name ∧
    (output_stream canOpen p name).2.output_stream_names.Nodup ∧
    (output_stream canOpen p name).2.output_stream_names.length
      = (output_stream canOpen p name).2.output_files.length := by
  cases hfind : findStream p.output_stream_names p.output_files name with
  | some os =>
    have h1 : output_stream canOpen p name = (os, p) := by
      simp [output_stream, hfind]
    rw [h1]
    exact ⟨h1, hnd, hlen⟩
  | none =>
    have hnotmem : name ∉ p.output_stream_names :=
      (findStream_eq_none hlen).mp hfind
    have hnames : (output_stream canOpen p name).2.output_stream_names
        = p.output_stream_names ++ [name] := by
      simp only [output_stream, hfind]
      split <;> rfl
    have hfiles : (output_stream canOpen p name).2.output_files
        = p.output_files ++ [p.next_handle] := by
      simp only [output_stream, hfind]
      split <;> rfl
    have hfst : (output_stream canOpen p name).1 = p.next_handle := by
      simp only [output_stream, hfind]
    have hfind2 : findStream (output_stream canOpen p name).2.output_stream_names
        (output_stream canOpen p name).2.output_files name = some p.next_handle := by
      rw [hnames, hfiles]
      exact findStream_append_self hlen hfind p.next_handle
    have h2 : output_stream canOpen (output_stream canOpen p name).2 name
        = (p.next_handle, (output_stream canOpen p name).2) := by
      generalize hq : (output_stream canOpen p name).2 = q at hfind2
      unfold output_stream
      rw [hfind2]
    refine ⟨?_, ?_, ?_⟩
    · rw [h2]
      refine Prod.ext ?_ rfl
      exact hfst.symm
    · rw [hnames]
      simp [List.nodup_append, hnd, hnotmem]
    · rw [hnames, hfiles]
      simp [hlen]

/-- Witness for C4: opening the same name twice on a fresh proxy returns the
identical handle-state pair both times. -/
theorem output_stream_idempotent_witness :
    (initProxy.output_stream_names.length = initProxy.output_files.length ∧
      initProxy.output_stream_names.Nodup) ∧
    output_stream (fun _ => true)
        (output_stream (fun _ => true) initProxy "out.dat").2 "out.dat"
      = output_stream (fun _ => true) initProxy "out.dat" :=
  ⟨⟨by decide, by decide⟩,
    (output_stream_idempotent (fun _ => true) initProxy "out.dat"
      (by decide) (by decide)).1⟩


/-- With aligned bookkeeping lists, the closing scan misses exactly when the
name is not recorded. -/
theorem closeScan_eq_none {name : String} : ∀ {ns : List String}
    {fs : List Nat}, ns.length = fs.length →
    (closeScan ns fs name = none ↔ name ∉ ns)
  | [], [], _ => by simp [closeScan]
  | [], _ :: _, h => by simp at h
  | _ :: _, [], h => by simp at h
  | n :: ns, f :: fs, h => by
    by_cases hn : n = name
    · simp [closeScan, hn]
    · have ih := @closeScan_eq_none name ns fs
        (by simpa using h)
      rw [List.mem_cons, not_or]
      constructor
      · intro hnone
        refine ⟨fun e => hn e.symm, ?_⟩
        rw [← ih]
        cases hc : closeScan ns fs name with
        | none => rfl
        | some r => simp [closeScan, hn, hc] at hnone
      · intro h1
        have hc : closeScan ns fs name = none := ih.mpr h1.2
        simp [closeScan, hn, hc]

/-- With aligned lists, the closing scan on a recorded name succeeds: exactly
one entry is erased from each list, the surviving names form a sublist of the
original ones, and if the names were duplicate-free the erased name is gone
from the result. -/
theorem closeScan_mem {name : String} : ∀ {ns : List String}
    {fs : List Nat}, ns.length = fs.length → name ∈ ns →
    ∃ ns2 fs2, closeScan ns fs name = some (ns2, fs2) ∧
      ns2.length + 1 = ns.length ∧ fs2.length + 1 = fs.length ∧
      ns2.Sublist ns ∧ (ns.Nodup → name ∉ ns2)
  | [], _, _, hmem => absurd hmem (List.not_mem_nil name)
  | _ :: _, [], h, _ => by simp at h
  | n :: ns, f :: fs, h, hmem => by
    by_cases hn : n = name
    · refine ⟨ns, fs, by simp [closeScan, hn], by simp, by simp,
        List.sublist_cons_self n ns, ?_⟩
      intro hnd
      rw [← hn]
      exact (List.nodup_cons.mp hnd).1
    · have hmem2 : name ∈ ns := by
        rcases List.mem_cons.mp hmem with he | hm
        · exact absurd he.symm hn
        · exact hm
      obtain ⟨ns2, fs2, hscan, hl1, hl2, hsub, hgone⟩ :=
        @closeScan_mem name ns fs (by simpa using h) hmem2
      refine ⟨n :: ns2, f :: fs2, by simp [closeScan, hn, hscan],
        by simpa using hl1, by simpa using hl2,
        List.cons_sublist_cons.mpr hsub, ?_⟩
      intro hnd
      rw [List.mem_cons, not_or]
      exact ⟨fun e => hn e.symm, hgone (List.nodup_cons.mp hnd).2⟩

/-- Claim C5: `close_output_stream` on an open name closes and removes its
bookkeeping entry (each list shrinks by one, the name is gone) and returns
`COLVARS_OK` with no error reported; on a name with no open channel --
including the second of two consecutive closes of the same name -- it reports
`BUG_ERROR` through the error sink, returns the `COLVARS_ERROR` code, and
leaves the bookkeeping lists unchanged. -/
theorem close_output_stream_spec (p : colvarproxy) (name : String)
    (hlen : p.output_stream_names.length = p.output_files.length) :
    (name ∉ p.output_stream_names →
      close_output_stream p name = (COLVARS_ERROR, cvm.error p BUG_ERROR)) ∧
    (name ∈ p.output_stream_names →
      (close_output_stream p name).1 = COLVARS_OK ∧
      (close_output_stream p name).2.output_stream_names.length + 1
        = p.output_stream_names.length ∧
      (close_output_stream p name).2.output_files.length + 1
        = p.output_files.length ∧
      (close_output_stream p name).2.errors = p.errors ∧
      (p.output_stream_names.Nodup →
        name ∉ (close_output_stream p name).2.output_stream_names ∧
        (close_output_stream (close_output_stream p name).2 name).1
          = COLVARS_ERROR ∧
        (close_output_stream (close_output_stream p name).2 name).2.errors
          = p.errors ++ [BUG_ERROR])) := by
  constructor
  · intro hnot
    have hscan : closeScan p.output_stream_names p.output_files name = none :=
      (closeScan_eq_none hlen).mpr hnot
    unfold close_output_stream
    rw [hscan]
  · intro hmem
    obtain ⟨ns2, fs2, hscan, hl1, hl2, hsub, hgone⟩ := closeScan_mem hlen hmem
    have heq : close_output_stream p name
        = (COLVARS_OK, { p with output_stream_names := ns2, output_files := fs2 }) := by
      unfold close_output_stream
      rw [hscan]
    rw [heq]
    refine ⟨rfl, by simpa using hl1, by simpa using hl2, rfl, ?_⟩
    intro hnd
    have hgone2 : name ∉ ns2 := hgone hnd
    have hlen2 : ns2.length = fs2.length := by omega
    have hscan2 : closeScan ns2 fs2 name = none :=
      (closeScan_eq_none hlen2).mpr hgone2
    have heq2 : close_output_stream
        { p with output_stream_names := ns2, output_files := fs2 } name
        = (COLVARS_ERROR, cvm.error
            { p with output_stream_names := ns2, output_files := fs2 } BUG_ERROR) := by
      unfold close_output_stream
      rw [hscan2]
    exact ⟨hgone2, by rw [heq2], by rw [heq2]; rfl⟩

/-- Witness for C5: on a proxy with one open channel named "a", closing "a"
returns `COLVARS_OK`, and a second close of "a" returns `COLVARS_ERROR`. -/
theorem close_output_stream_spec_witness :
    ((output_stream (fun _ => true) initProxy "a").2.output_stream_names.length
        = (output_stream (fun _ => true) initProxy "a").2.output_files.length ∧
      "a" ∈ (output_stream (fun _ => true) initProxy "a").2.output_stream_names) ∧
    (close_output_stream (output_stream (fun _ => true) initProxy "a").2 "a").1
      = COLVARS_OK :=
  ⟨⟨by decide, by decide⟩,
    ((close_output_stream_spec (output_stream (fun _ => true) initProxy "a").2 "a"
      (by decide)).2 (by decide)).1⟩

/-- Claim C10: when the underlying open fails, `output_stream` still records
the requested name, reports `FILE_ERROR` through the error sink, still
returns the freshly allocated (non-null) handle, and a subsequent request for
the same name returns that same cached handle with the state unchanged -- in
particular nothing is re-opened and no further error is reported. -/
theorem output_stream_open_failure (canOpen : String → Bool) (p : colvarproxy)
    (name : String) (hopen : canOpen name = false)
    (hnot : name ∉ p.output_stream_names)
    (hlen : p.output_stream_names.length = p.output_files.length) :
    (output_stream canOpen p name).1 = p.next_handle ∧
    (output_stream canOpen p name).2.output_stream_names
      = p.output_stream_names ++ [name] ∧
    (output_stream canOpen p name).2.output_files
      = p.output_files ++ [p.next_handle] ∧
    (output_stream canOpen p name).2.errors = p.errors ++ [FILE_ERROR] ∧
    output_stream canOpen (output_stream canOpen p name).2 name
      = ((output_stream canOpen p name).1, (output_stream canOpen p name).2) := by
  have hfind : findStream p.output_stream_names p.output_files name = none :=
    (findStream_eq_none hlen).mpr hnot
  have hfst : (output_stream canOpen p name).1 = p.next_handle := by
    simp only [output_stream, hfind]
  have hnames : (output_stream canOpen p name).2.output_stream_names
      = p.output_stream_names ++ [name] := by
    simp only [output_stream, hfind]
    split <;> rfl
  have hfiles : (output_stream canOpen p name).2.output_files
      = p.output_files ++ [p.next_handle] := by
    simp only [output_stream, hfind]
    split <;> rfl
  have herrs : (output_stream canOpen p name).2.errors
      = p.errors ++ [FILE_ERROR] := by
    simp [output_stream, hfind, hopen, cvm.error]
  have hfind2 : findStream (output_stream canOpen p name).2.output_stream_names
      (output_stream canOpen p name).2.output_files name = some p.next_handle := by
    rw [hnames, hfiles]
    exact findStream_append_self hlen hfind p.next_handle
  have h2 : output_stream canOpen (output_stream canOpen p name).2 name
      = (p.next_handle, (output_stream canOpen p name).2) := by
    generalize hq : (output_stream canOpen p name).2 = q at hfind2
    unfold output_stream
    rw [hfind2]
  refine ⟨hfst, hnames, hfiles, herrs, ?_⟩
  rw [h2]
  refine Prod.ext ?_ rfl
  exact hfst.symm

/-- Witness for C10: a name whose open always fails, requested twice on the
fresh proxy: the handle is recorded, `FILE_ERROR` is logged once, and the
second request returns the cached handle with the state unchanged. -/
theorem output_stream_open_failure_witness :
    ((fun _ : String => false) "x" = false ∧
      "x" ∉ initProxy.output_stream_names ∧
      initProxy.output_stream_names.length = initProxy.output_files.length) ∧
    (output_stream (fun _ => false) initProxy "x").2.errors
      = initProxy.errors ++ [FILE_ERROR] :=
  ⟨⟨rfl, by decide, by decide⟩,
    (output_stream_open_failure (fun _ => false) initProxy "x" rfl
      (by decide) (by decide)).2.2.2.1⟩
